import Mathlib

/-!
Verification of the OpenMV frame-buffer scratch allocator (`src/omv/fb_alloc.c`).

The allocator is a downward-growing stack over a fixed RAM region:
* `base` models the address of the linker symbol `_fs_cache` (top of the region,
  the cursor's position when nothing is allocated);
* `floor` models the value of `FB_PIXELS()` (top of the live pixel buffer, the
  lowest address the allocator may touch);
* the global `static char *pointer` is the `ptr` field of `FbState`;
* RAM is modelled byte by byte as a function `Nat → Nat`; `uint32_t` stores and
  loads are little-endian 4-byte operations, so a 32-bit store truncates its
  value modulo 2^32 exactly as the hardware does.

Addresses are modelled as exact natural numbers: forming a pointer below the
start of the region is undefined behaviour in C, so the bounds test
`new_pointer < FB_PIXELS()` is rendered with exact integer arithmetic
(`ptr < floor + rounded + 4` is `ptr - rounded - 4 < floor` without truncation).
The `uint32_t` arithmetic that rounds the requested size and the 32-bit header
store, which are well defined modulo 2^32 in C, keep their wrap-around.

`fb_alloc_fail` raises a MicroPython exception (`nlr_raise`, `NORETURN`) before
any state is mutated; the model returns the `collision` result together with the
unchanged state.
-/

namespace FbAlloc

/-- Allocator state: the cursor (`static char *pointer` in `fb_alloc.c`), the
byte-addressed memory, and the mark stack used by the spec-modelled
`mark` / `release_to_mark` operations (the C globals in `fb_alloc.c` never touch
it). -/
structure FbState where
  ptr : Nat
  mem : Nat → Nat
  marks : List Nat

/-- Little-endian store of a `uint32_t` value at byte address `a`:
models `*((uint32_t *) a) = v`.  The value is truncated to 32 bits by
construction, as in C. -/
def store32 (a v : Nat) (m : Nat → Nat) : Nat → Nat :=
  fun x =>
    if x = a then v % 256
    else if x = a + 1 then v / 256 % 256
    else if x = a + 2 then v / 65536 % 256
    else if x = a + 3 then v / 16777216 % 256
    else m x

/-- Little-endian load of a `uint32_t` from byte address `a`:
models `*((uint32_t *) a)`. -/
def load32 (m : Nat → Nat) (a : Nat) : Nat :=
  m a + 256 * m (a + 1) + 65536 * m (a + 2) + 16777216 * m (a + 3)

/-- `memset(a, 0, n)`: zero the `n` bytes starting at address `a`. -/
def memset0 (a n : Nat) (m : Nat → Nat) : Nat → Nat :=
  fun x => if a ≤ x ∧ x < a + n then 0 else m x

/-- The size rounding in `fb_alloc`:
`size = ((size + sizeof(uint32_t) - 1) / sizeof(uint32_t)) * sizeof(uint32_t)`
computed in `uint32_t` arithmetic, so the addition `size + 3` wraps modulo
2^32. -/
def roundUp4 (size : Nat) : Nat :=
  (size + 3) % 4294967296 / 4 * 4

/-- The rounding as the spec words it ("rounds `size` up to the machine word
size"): the least multiple of 4 that is at least `size`, with no wrap-around.
Kept separate from `roundUp4` (the code's `uint32_t` computation) so the two
can be compared. -/
def specRoundUp (size : Nat) : Nat :=
  4 * ((size + 3) / 4)

/-- Result of an allocation call: a payload pointer, the NULL pointer returned
for `size == 0`, or the `fb_alloc_fail()` / "FB Alloc Collision!!!" exception. -/
inductive AllocResult where
  | ok (p : Nat)
  | nullPtr
  | collision
deriving DecidableEq

/-- `true` when the call returned a payload pointer. -/
def AllocResult.isOk : AllocResult → Bool
  | .ok _ => true
  | _ => false

/-- `fb_alloc` from `fb_alloc.c`:

* `size == 0` returns NULL without touching anything;
* otherwise the size is rounded up (`roundUp4`), `result = pointer - size`,
  `new_pointer = result - sizeof(uint32_t)`;
* if `new_pointer < FB_PIXELS()` (exact arithmetic:
  `pointer < floor + rounded + 4`) then `fb_alloc_fail()` is raised, with no
  state mutated;
* otherwise `size + sizeof(uint32_t)` is stored in the `uint32_t` header at
  `new_pointer`, the cursor moves to `new_pointer`, and `result` is returned. -/
def fb_alloc (floor size : Nat) (s : FbState) : AllocResult × FbState :=
  if size = 0 then (.nullPtr, s)
  else if s.ptr < floor + roundUp4 size + 4 then (.collision, s)
  else
    (.ok (s.ptr - roundUp4 size),
     { s with ptr := s.ptr - roundUp4 size - 4,
              mem := store32 (s.ptr - roundUp4 size - 4) (roundUp4 size + 4) s.mem })

/-- `fb_alloc0` from `fb_alloc.c`: `mem = fb_alloc(size); memset(mem, 0, size);
return mem;`.  The `memset` uses the caller's un-rounded `size`; it runs only
when `fb_alloc` actually returned (for `size == 0` it is `memset(NULL, 0, 0)`,
touching nothing; on a collision the exception propagates first). -/
def fb_alloc0 (floor size : Nat) (s : FbState) : AllocResult × FbState :=
  match fb_alloc floor size s with
  | (.ok p, s') => (.ok p, { s' with mem := memset0 p size s'.mem })
  | other => other

/-- `fb_free` from `fb_alloc.c`: `if (pointer < &_fs_cache) pointer +=
*((uint32_t *) pointer);`. -/
def fb_free (base : Nat) (s : FbState) : FbState :=
  if s.ptr < base then { s with ptr := s.ptr + load32 s.mem s.ptr } else s

/-- `fb_alloc_init0` from `fb_alloc.c`: `pointer = &_fs_cache;`. -/
def fb_alloc_init0 (base : Nat) (s : FbState) : FbState :=
  { s with ptr := base }

/-- Modelled from the spec: `fb_alloc_mark` is declared and called throughout
the repository but its body is not among the given sources.  Spec §4.2:
"`mark()`: pushes the current `cursor` onto an internal mark stack", a
structure kept separate from the scratch region itself. -/
def fb_alloc_mark (s : FbState) : FbState :=
  { s with marks := s.ptr :: s.marks }

/-- Fuelled pop loop for `release_to_mark`: repeatedly apply `fb_free` until
the cursor equals the saved mark `m` (or the fuel runs out). -/
def popTo (base m : Nat) : Nat → FbState → FbState
  | 0, s => s
  | fuel + 1, s => if s.ptr = m then s else popTo base m fuel (fb_free base s)

/-- Modelled from the spec: `fb_alloc_free_till_mark` (the spec's
`release_to_mark`) is called in the repository but its body is not among the
given sources.  Spec §4.2: "pops the most recent mark value `m`; repeatedly
pops allocations (as in `free()`, header-driven) until `cursor == m`";
spec §7: a release with no mark outstanding is tolerated as a no-op.
`base - s.ptr` bounds the number of pops, since every live allocation occupies
at least one byte. -/
def fb_alloc_free_till_mark (base : Nat) (s : FbState) : FbState :=
  match s.marks with
  | [] => s
  | m :: rest => { popTo base m (base - s.ptr) s with marks := rest }

/-- Run a sequence of `fb_alloc` calls, threading the state. -/
def runAllocs (floor : Nat) : List Nat → FbState → FbState
  | [], s => s
  | size :: rest, s => runAllocs floor rest (fb_alloc floor size s).2

/-- `true` when every `fb_alloc` call in the sequence returns a payload
pointer. -/
def allocsOk (floor : Nat) : List Nat → FbState → Bool
  | [], _ => true
  | size :: rest, s =>
    (fb_alloc floor size s).1.isOk && allocsOk floor rest (fb_alloc floor size s).2

/-- States reachable by the operations named in the spec's bounds invariant:
an `fb_alloc_init0` (from an arbitrary state, so with arbitrary memory
contents), followed by any sequence of `fb_alloc`, `fb_alloc0` and `fb_free`
calls.  Sizes are bounded by 2^32 because the C parameter is a `uint32_t`.
Collision calls leave the state unchanged, so including them loses
nothing. -/
inductive Reachable (base floor : Nat) : FbState → Prop
  | init (s : FbState) : Reachable base floor (fb_alloc_init0 base s)
  | alloc {s : FbState} {size : Nat} (hsize : size < 4294967296) :
      Reachable base floor s → Reachable base floor (fb_alloc floor size s).2
  | alloc0 {s : FbState} {size : Nat} (hsize : size < 4294967296) :
      Reachable base floor s → Reachable base floor (fb_alloc0 floor size s).2
  | free {s : FbState} :
      Reachable base floor s → Reachable base floor (fb_free base s)

/-- The header chain above the cursor.  From address `a` up to `base`, each
position either is `base` itself, carries a dead (zeroed) header on which
`fb_free` is a no-op, or carries a live header: a positive multiple of 4 whose
jump stays within `base`.  Every header the allocator ever stores is a multiple
of 4, and `fb_alloc0`'s `memset` can only zero headers, so this predicate is
preserved by all operations. -/
inductive Chain (base : Nat) (m : Nat → Nat) : Nat → Prop
  | nil : Chain base m base
  | stuck {a : Nat} : a < base → load32 m a = 0 → Chain base m a
  | cons {a : Nat} : a < base → 0 < load32 m a → 4 ∣ load32 m a →
      a + load32 m a ≤ base → Chain base m (a + load32 m a) → Chain base m a

/-- Inductive invariant: the cursor is at most `base`, the header chain above
it is well formed, and the cursor keeps `base`'s alignment residue. -/
def Inv (base : Nat) (s : FbState) : Prop :=
  s.ptr ≤ base ∧ Chain base s.mem s.ptr ∧ s.ptr % 4 = base % 4

/-! ### Byte-memory lemmas -/

lemma store32_eq_of_lt {a x : Nat} (v : Nat) (m : Nat → Nat) (h : x < a) :
    store32 a v m x = m x := by
  unfold store32
  rw [if_neg (by omega), if_neg (by omega), if_neg (by omega), if_neg (by omega)]

lemma store32_eq_of_ge {a x : Nat} (v : Nat) (m : Nat → Nat) (h : a + 4 ≤ x) :
    store32 a v m x = m x := by
  unfold store32
  rw [if_neg (by omega), if_neg (by omega), if_neg (by omega), if_neg (by omega)]

lemma load32_congr {m₁ m₂ : Nat → Nat} {a : Nat}
    (h : ∀ x, a ≤ x → x < a + 4 → m₁ x = m₂ x) : load32 m₁ a = load32 m₂ a := by
  unfold load32
  rw [h a (by omega) (by omega), h (a + 1) (by omega) (by omega),
    h (a + 2) (by omega) (by omega), h (a + 3) (by omega) (by omega)]

lemma load32_store32 (a v : Nat) (m : Nat → Nat) :
    load32 (store32 a v m) a = v % 4294967296 := by
  unfold load32 store32
  rw [if_pos rfl, if_neg (by omega), if_pos rfl, if_neg (by omega),
    if_neg (by omega), if_pos rfl, if_neg (by omega), if_neg (by omega),
    if_neg (by omega), if_pos rfl]
  omega

lemma memset0_eq_of_lt {a x : Nat} (n : Nat) (m : Nat → Nat) (h : x < a) :
    memset0 a n m x = m x := by
  unfold memset0
  rw [if_neg (by omega)]

lemma memset0_eq_of_ge {a n x : Nat} (m : Nat → Nat) (h : a + n ≤ x) :
    memset0 a n m x = m x := by
  unfold memset0
  rw [if_neg (by omega)]

lemma memset0_eq_zero {a n x : Nat} (m : Nat → Nat) (h₁ : a ≤ x)
    (h₂ : x < a + n) : memset0 a n m x = 0 := by
  unfold memset0
  rw [if_pos ⟨h₁, h₂⟩]

/-! ### Size-rounding lemmas -/

lemma roundUp4_dvd (size : Nat) : 4 ∣ roundUp4 size := by
  unfold roundUp4
  omega

lemma roundUp4_le (size : Nat) : roundUp4 size ≤ 4294967292 := by
  unfold roundUp4
  omega

/-- Either the rounding behaves as a true round-up, or the `uint32_t` addition
`size + 3` wrapped (only for `size ≥ 2^32 - 3`) and the result collapsed
to zero. -/
lemma roundUp4_cases {size : Nat} (hsize : size < 4294967296) :
    (size ≤ roundUp4 size ∧ roundUp4 size < size + 4) ∨
      (roundUp4 size = 0 ∧ 4294967293 ≤ size) := by
  unfold roundUp4
  omega

lemma roundUp4_exact {size : Nat} (h : size + 3 < 4294967296) :
    roundUp4 size = 4 * ((size + 3) / 4) := by
  unfold roundUp4
  omega

/-! ### Case analyses of the allocation operations -/

lemma fb_alloc_zero (floor : Nat) (s : FbState) :
    fb_alloc floor 0 s = (.nullPtr, s) := by
  unfold fb_alloc
  rw [if_pos rfl]

lemma fb_alloc_collision {floor size : Nat} {s : FbState} (h0 : size ≠ 0)
    (h : s.ptr < floor + roundUp4 size + 4) :
    fb_alloc floor size s = (.collision, s) := by
  unfold fb_alloc
  rw [if_neg h0, if_pos h]

lemma fb_alloc_success {floor size : Nat} {s : FbState} (h0 : size ≠ 0)
    (h : floor + roundUp4 size + 4 ≤ s.ptr) :
    fb_alloc floor size s =
      (.ok (s.ptr - roundUp4 size),
       { s with ptr := s.ptr - roundUp4 size - 4,
                mem := store32 (s.ptr - roundUp4 size - 4) (roundUp4 size + 4) s.mem }) := by
  unfold fb_alloc
  rw [if_neg h0, if_neg (by omega)]

lemma fb_alloc0_zero (floor : Nat) (s : FbState) :
    fb_alloc0 floor 0 s = (.nullPtr, s) := by
  unfold fb_alloc0
  rw [fb_alloc_zero]

lemma fb_alloc0_collision {floor size : Nat} {s : FbState} (h0 : size ≠ 0)
    (h : s.ptr < floor + roundUp4 size + 4) :
    fb_alloc0 floor size s = (.collision, s) := by
  unfold fb_alloc0
  rw [fb_alloc_collision h0 h]

lemma fb_alloc0_success {floor size : Nat} {s : FbState} (h0 : size ≠ 0)
    (h : floor + roundUp4 size + 4 ≤ s.ptr) :
    fb_alloc0 floor size s =
      (.ok (s.ptr - roundUp4 size),
       { s with ptr := s.ptr - roundUp4 size - 4,
                mem := memset0 (s.ptr - roundUp4 size) size
                  (store32 (s.ptr - roundUp4 size - 4) (roundUp4 size + 4) s.mem) }) := by
  unfold fb_alloc0
  rw [fb_alloc_success h0 h]

lemma fb_free_mem (base : Nat) (s : FbState) : (fb_free base s).mem = s.mem := by
  unfold fb_free
  split <;> rfl

lemma fb_free_marks (base : Nat) (s : FbState) : (fb_free base s).marks = s.marks := by
  unfold fb_free
  split <;> rfl

lemma fb_free_pos {base : Nat} {s : FbState} (h : s.ptr < base) :
    fb_free base s = { s with ptr := s.ptr + load32 s.mem s.ptr } := by
  unfold fb_free
  rw [if_pos h]

/-! ### Chain lemmas -/

lemma chain_le {base p : Nat} {m : Nat → Nat} (hc : Chain base m p) : p ≤ base := by
  cases hc with
  | nil => exact Nat.le_refl _
  | stuck hlt _ => exact Nat.le_of_lt hlt
  | cons hlt _ _ _ _ => exact Nat.le_of_lt hlt

lemma chain_congr {base : Nat} {m₁ m₂ : Nat → Nat} {p : Nat} (hc : Chain base m₁ p) :
    (∀ x, p ≤ x → m₁ x = m₂ x) → Chain base m₂ p := by
  induction hc with
  | nil => exact fun _ => .nil
  | stuck hlt hz =>
    intro h
    exact .stuck hlt ((load32_congr fun x hx _ => (h x hx).symm).trans hz)
  | cons hlt hpos hdvd hle hnext ih =>
    intro h
    have e : load32 m₁ _ = load32 m₂ _ := load32_congr fun x hx _ => h x hx
    refine .cons hlt (e ▸ hpos) (e ▸ hdvd) (e ▸ hle) ?_
    rw [← e]
    exact ih fun x hx => h x (by omega)

/-- Pushing one allocation record preserves the chain: the header written at
`p - r - 4` is a multiple of 4, and its 32-bit truncation is either the exact
value `r + 4` (a live link back to `p`) or zero (a dead link, when
`r + 4 = 2^32`). -/
lemma chain_push {base p r : Nat} {m : Nat → Nat} (hpb : p ≤ base)
    (hc : Chain base m p) (hr4 : 4 ∣ r) (hrle : r ≤ 4294967292)
    (hrp : r + 4 ≤ p) :
    Chain base (store32 (p - r - 4) (r + 4) m) (p - r - 4) := by
  have hload : load32 (store32 (p - r - 4) (r + 4) m) (p - r - 4)
      = (r + 4) % 4294967296 := load32_store32 _ _ _
  by_cases hwrap : r + 4 = 4294967296
  · refine .stuck (by omega) ?_
    rw [hload, hwrap, Nat.mod_self]
  · have hload' : load32 (store32 (p - r - 4) (r + 4) m) (p - r - 4) = r + 4 := by
      rw [hload, Nat.mod_eq_of_lt (by omega)]
    have htail : Chain base (store32 (p - r - 4) (r + 4) m) p :=
      chain_congr hc fun x hx => (store32_eq_of_ge _ _ (by omega)).symm
    have hpos : p - r - 4 + load32 (store32 (p - r - 4) (r + 4) m) (p - r - 4) = p := by
      rw [hload']; omega
    refine .cons (by omega) (by rw [hload']; omega) (by rw [hload']; omega)
      (by rw [hpos]; exact hpb) ?_
    rw [hpos]
    exact htail

/-- A 32-bit load whose four bytes all lie inside a zeroed range reads zero. -/
lemma load32_memset0 {a n x : Nat} (m : Nat → Nat) (h₁ : a ≤ x)
    (h₂ : x + 4 ≤ a + n) : load32 (memset0 a n m) x = 0 := by
  unfold load32
  rw [memset0_eq_zero m (by omega) (by omega), memset0_eq_zero m (by omega) (by omega),
    memset0_eq_zero m (by omega) (by omega), memset0_eq_zero m (by omega) (by omega)]

/-- Pushing one allocation record and then zero-filling the payload (as
`fb_alloc0` does) preserves the chain.  When the `uint32_t` rounding wrapped
(`roundUp4 size = 0` for `size ≥ 2^32 - 3`), the `memset` floods the region
above the cursor, but it can only zero headers, which turns live links into
dead ones and keeps the chain well formed. -/
lemma chain_push0 {base p size : Nat} {m : Nat → Nat} (hpb : p ≤ base)
    (hc : Chain base m p) (hsize : size < 4294967296)
    (hrp : roundUp4 size + 4 ≤ p) :
    Chain base
      (memset0 (p - roundUp4 size) size
        (store32 (p - roundUp4 size - 4) (roundUp4 size + 4) m))
      (p - roundUp4 size - 4) := by
  rcases roundUp4_cases hsize with ⟨hle, _⟩ | ⟨hzero, hbig⟩
  · -- the rounding did not wrap: the memset stays strictly below the old cursor
    have hload : load32
        (memset0 (p - roundUp4 size) size
          (store32 (p - roundUp4 size - 4) (roundUp4 size + 4) m))
        (p - roundUp4 size - 4)
        = (roundUp4 size + 4) % 4294967296 := by
      have e1 : load32
          (memset0 (p - roundUp4 size) size
            (store32 (p - roundUp4 size - 4) (roundUp4 size + 4) m))
          (p - roundUp4 size - 4)
          = load32 (store32 (p - roundUp4 size - 4) (roundUp4 size + 4) m)
              (p - roundUp4 size - 4) :=
        load32_congr fun x hx hx4 => memset0_eq_of_lt _ _ (by omega)
      rw [e1, load32_store32]
    by_cases hwrap : roundUp4 size + 4 = 4294967296
    · refine .stuck (by omega) ?_
      rw [hload, hwrap, Nat.mod_self]
    · have hload' : load32
          (memset0 (p - roundUp4 size) size
            (store32 (p - roundUp4 size - 4) (roundUp4 size + 4) m))
          (p - roundUp4 size - 4) = roundUp4 size + 4 := by
        rw [hload, Nat.mod_eq_of_lt (by have := roundUp4_le size; omega)]
      have htail : Chain base
          (memset0 (p - roundUp4 size) size
            (store32 (p - roundUp4 size - 4) (roundUp4 size + 4) m)) p := by
        refine chain_congr hc fun x hx => ?_
        rw [memset0_eq_of_ge _ (by omega), store32_eq_of_ge _ _ (by omega)]
      have hpos : p - roundUp4 size - 4 + load32
          (memset0 (p - roundUp4 size) size
            (store32 (p - roundUp4 size - 4) (roundUp4 size + 4) m))
          (p - roundUp4 size - 4) = p := by
        rw [hload']; omega
      refine .cons (by omega) (by rw [hload']; omega)
        (by rw [hload']; have := roundUp4_dvd size; omega)
        (by rw [hpos]; exact hpb) ?_
      rw [hpos]
      exact htail
  · -- the rounding wrapped to zero: header value 4, memset floods [p, p + size)
    rw [hzero]
    have hload : load32
        (memset0 (p - 0) size (store32 (p - 0 - 4) (0 + 4) m)) (p - 0 - 4)
        = 4 := by
      have e1 : load32 (memset0 (p - 0) size (store32 (p - 0 - 4) (0 + 4) m)) (p - 0 - 4)
          = load32 (store32 (p - 0 - 4) (0 + 4) m) (p - 0 - 4) :=
        load32_congr fun x hx hx4 => memset0_eq_of_lt _ _ (by omega)
      rw [e1, load32_store32]
    have htail : Chain base (memset0 (p - 0) size (store32 (p - 0 - 4) (0 + 4) m)) p := by
      rcases Nat.lt_or_ge p base with hlt | hge
      · exact .stuck hlt (load32_memset0 _ (by omega) (by omega))
      · have hpb' : p = base := Nat.le_antisymm hpb hge
        rw [hpb']; exact .nil
    have hpos : p - 0 - 4 + load32
        (memset0 (p - 0) size (store32 (p - 0 - 4) (0 + 4) m)) (p - 0 - 4) = p := by
      rw [hload]; rw [hzero] at hrp; omega
    refine .cons (by rw [hzero] at hrp; omega) (by rw [hload]; omega) (by rw [hload])
      (by rw [hpos]; exact hpb) ?_
    rw [hpos]
    exact htail

/-- One `fb_free` step seen through the chain: from a cursor strictly below
`base`, the header it reads is a multiple of 4 and jumps to a position that is
still at most `base` and still carries a well-formed chain. -/
lemma chain_step {base p : Nat} {m : Nat → Nat} (hc : Chain base m p)
    (h : p < base) :
    p + load32 m p ≤ base ∧ 4 ∣ load32 m p ∧ Chain base m (p + load32 m p) := by
  cases hc with
  | nil => omega
  | stuck hlt hz =>
    refine ⟨by omega, by rw [hz]; exact Nat.dvd_zero 4, ?_⟩
    rw [hz]
    exact .stuck hlt hz
  | cons hlt hpos hdvd hle hnext => exact ⟨hle, hdvd, hnext⟩

/-! ### Preservation of the inductive invariant -/

lemma inv_init (base : Nat) (s : FbState) : Inv base (fb_alloc_init0 base s) :=
  ⟨Nat.le_refl _, .nil, rfl⟩

lemma inv_alloc {base floor size : Nat} {s : FbState} (_hsize : size < 4294967296)
    (hinv : Inv base s) : Inv base (fb_alloc floor size s).2 := by
  obtain ⟨hpb, hc, hal⟩ := hinv
  by_cases h0 : size = 0
  · rw [h0, fb_alloc_zero]
    exact ⟨hpb, hc, hal⟩
  by_cases hcol : s.ptr < floor + roundUp4 size + 4
  · rw [fb_alloc_collision h0 hcol]
    exact ⟨hpb, hc, hal⟩
  · rw [fb_alloc_success h0 (by omega)]
    refine ⟨by dsimp only; omega, ?_, ?_⟩
    · exact chain_push hpb hc (roundUp4_dvd size) (roundUp4_le size) (by omega)
    · dsimp only
      have := roundUp4_dvd size
      omega

lemma inv_alloc0 {base floor size : Nat} {s : FbState} (hsize : size < 4294967296)
    (hinv : Inv base s) : Inv base (fb_alloc0 floor size s).2 := by
  obtain ⟨hpb, hc, hal⟩ := hinv
  by_cases h0 : size = 0
  · rw [h0, fb_alloc0_zero]
    exact ⟨hpb, hc, hal⟩
  by_cases hcol : s.ptr < floor + roundUp4 size + 4
  · rw [fb_alloc0_collision h0 hcol]
    exact ⟨hpb, hc, hal⟩
  · rw [fb_alloc0_success h0 (by omega)]
    refine ⟨by dsimp only; omega, ?_, ?_⟩
    · exact chain_push0 hpb hc hsize (by omega)
    · dsimp only
      have := roundUp4_dvd size
      omega

lemma inv_free {base : Nat} {s : FbState} (hinv : Inv base s) :
    Inv base (fb_free base s) := by
  obtain ⟨hpb, hc, hal⟩ := hinv
  unfold fb_free
  by_cases h : s.ptr < base
  · obtain ⟨h1, h2, h3⟩ := chain_step hc h
    rw [if_pos h]
    exact ⟨h1, h3, by dsimp only; omega⟩
  · rw [if_neg h]
    exact ⟨hpb, hc, hal⟩

/-- Every reachable state satisfies the inductive invariant. -/
lemma reachable_inv {base floor : Nat} {s : FbState}
    (hr : Reachable base floor s) : Inv base s := by
  induction hr with
  | init s => exact inv_init base s
  | alloc hsize _ ih => exact inv_alloc hsize ih
  | alloc0 hsize _ ih => exact inv_alloc0 hsize ih
  | free _ ih => exact inv_free ih

/-- The cursor of every reachable state stays at or above the floor, provided
the region is non-degenerate (`floor ≤ base`). -/
lemma reachable_floor {base floor : Nat} {s : FbState} (hfb : floor ≤ base)
    (hr : Reachable base floor s) : floor ≤ s.ptr := by
  induction hr with
  | init s => exact hfb
  | alloc hsize hr ih =>
    rename_i s' size
    by_cases h0 : size = 0
    · rw [h0, fb_alloc_zero]
      exact ih
    by_cases hcol : s'.ptr < floor + roundUp4 size + 4
    · rw [fb_alloc_collision h0 hcol]
      exact ih
    · rw [fb_alloc_success h0 (by omega)]
      dsimp only
      omega
  | alloc0 hsize hr ih =>
    rename_i s' size
    by_cases h0 : size = 0
    · rw [h0, fb_alloc0_zero]
      exact ih
    by_cases hcol : s'.ptr < floor + roundUp4 size + 4
    · rw [fb_alloc0_collision h0 hcol]
      exact ih
    · rw [fb_alloc0_success h0 (by omega)]
      dsimp only
      omega
  | free hr ih =>
    unfold fb_free
    split
    · dsimp only
      omega
    · exact ih

/-! ### Claim theorems -/

/-- C1: for every reachable state of the allocator (any sequence of `init`,
`allocate`, `allocate_zeroed` and `free` calls, over a region with
`floor ≤ base`), the bounds invariant `floor ≤ cursor ≤ base` holds; in
particular no sequence of valid operations can move the cursor below the
floor. -/
theorem c1_bounds_invariant {base floor : Nat} {s : FbState}
    (hfb : floor ≤ base) (hr : Reachable base floor s) :
    floor ≤ s.ptr ∧ s.ptr ≤ base :=
  ⟨reachable_floor hfb hr, (reachable_inv hr).1⟩

theorem c1_bounds_invariant_witness :
    (1000 : Nat) ≤ 2000 ∧
      (1000 ≤ (fb_free 2000 (fb_alloc 1000 10
          (fb_alloc_init0 2000 ⟨0, fun _ => 0, []⟩)).2).ptr ∧
        (fb_free 2000 (fb_alloc 1000 10
          (fb_alloc_init0 2000 ⟨0, fun _ => 0, []⟩)).2).ptr ≤ 2000) :=
  ⟨by omega,
    c1_bounds_invariant (by omega)
      (.free (.alloc (by omega) (.init ⟨0, fun _ => 0, []⟩)))⟩

/-- C2: for `size > 0`, when the candidate new cursor
`cursor - rounded_size - header_size` (exact arithmetic) would lie below the
floor, `fb_alloc` raises the collision condition and returns with the
allocator state completely unchanged: the cursor is not moved and no header
word is written. -/
theorem c2_collision_no_mutation {floor size : Nat} {s : FbState}
    (h0 : 0 < size)
    (h : (s.ptr : Int) - roundUp4 size - 4 < floor) :
    fb_alloc floor size s = (.collision, s) :=
  fb_alloc_collision (by omega) (by omega)

theorem c2_collision_no_mutation_witness :
    (0 : Nat) < 2000 ∧
      ((2500 : Int) - roundUp4 2000 - 4 < 1000) ∧
      fb_alloc 1000 2000 ⟨2500, fun _ => 0, []⟩ =
        (.collision, ⟨2500, fun _ => 0, []⟩) :=
  ⟨by omega, by norm_num [roundUp4],
    c2_collision_no_mutation (by omega) (by norm_num [roundUp4])⟩

/-- C7: `allocate(0)` returns the null pointer, raises no error, and leaves
the cursor and all other allocator state unchanged. -/
theorem c7_alloc_zero_null (floor : Nat) (s : FbState) :
    fb_alloc floor 0 s = (.nullPtr, s) :=
  fb_alloc_zero floor s

/-- C9: calling `free` when nothing is allocated (`cursor == base`) is a
no-op for any number of repetitions: no error is signalled (the function has
no error path) and the state is unchanged. -/
theorem c9_free_empty_noop {base : Nat} {s : FbState} (h : s.ptr = base)
    (n : Nat) : (fb_free base)^[n] s = s := by
  have h1 : fb_free base s = s := by
    unfold fb_free
    rw [if_neg (by omega)]
  induction n with
  | zero => rfl
  | succ k ih => rw [Function.iterate_succ_apply, h1, ih]

theorem c9_free_empty_noop_witness :
    (2000 : Nat) = 2000 ∧
      (fb_free 2000)^[3] (⟨2000, fun _ => 0, []⟩ : FbState) =
        ⟨2000, fun _ => 0, []⟩ :=
  ⟨rfl, c9_free_empty_noop rfl 3⟩

/-- C5: no allocator operation writes to any memory address below the floor:
`fb_alloc` (on success, on the null-size path and on the collision path),
`fb_alloc0`, `fb_free` and `fb_alloc_init0` all leave every byte under
`floor` unchanged. -/
theorem c5_no_write_below_floor (base floor size : Nat) (s : FbState)
    (x : Nat) (hx : x < floor) :
    (fb_alloc floor size s).2.mem x = s.mem x ∧
    (fb_alloc0 floor size s).2.mem x = s.mem x ∧
    (fb_free base s).mem x = s.mem x ∧
    (fb_alloc_init0 base s).mem x = s.mem x := by
  refine ⟨?_, ?_, ?_, rfl⟩
  · by_cases h0 : size = 0
    · rw [h0, fb_alloc_zero]
    · by_cases hcol : s.ptr < floor + roundUp4 size + 4
      · rw [fb_alloc_collision h0 hcol]
      · rw [fb_alloc_success h0 (by omega)]
        dsimp only
        exact store32_eq_of_lt _ _ (by omega)
  · by_cases h0 : size = 0
    · rw [h0, fb_alloc0_zero]
    · by_cases hcol : s.ptr < floor + roundUp4 size + 4
      · rw [fb_alloc0_collision h0 hcol]
      · rw [fb_alloc0_success h0 (by omega)]
        dsimp only
        rw [memset0_eq_of_lt _ _ (by omega)]
        exact store32_eq_of_lt _ _ (by omega)
  · rw [fb_free_mem]

theorem c5_no_write_below_floor_witness :
    (999 : Nat) < 1000 ∧
      ((fb_alloc 1000 10 ⟨2000, fun _ => 5, []⟩).2.mem 999 = 5 ∧
        (fb_alloc0 1000 10 ⟨2000, fun _ => 5, []⟩).2.mem 999 = 5 ∧
        (fb_free 2000 ⟨2000, fun _ => 5, []⟩).mem 999 = 5 ∧
        (fb_alloc_init0 2000 ⟨2000, fun _ => 5, []⟩).mem 999 = 5) :=
  ⟨by omega, c5_no_write_below_floor 2000 1000 10 ⟨2000, fun _ => 5, []⟩ 999 (by omega)⟩

/-- C3 counterexample: the claim as stated fails at `size = 2^32 - 1`.  With
`floor = 1000` and the cursor at `2000`, `fb_alloc 1000 4294967295` does not
take the collision path — the `uint32_t` computation
`((size + 3) / 4) * 4` wraps to `0` — so the call succeeds, moves the cursor
only from `2000` to `1996`, returns pointer `2000`, and stores `4` in the
header, whereas rounding `size` up to the word size would give `2^32` and a
header of `2^32 + 4`. -/
theorem c3_rounding_wraps_counterexample :
    (fb_alloc 1000 4294967295 ⟨2000, fun _ => 0, []⟩).1 = .ok 2000 ∧
    (fb_alloc 1000 4294967295 ⟨2000, fun _ => 0, []⟩).2.ptr = 1996 ∧
    roundUp4 4294967295 = 0 ∧
    specRoundUp 4294967295 = 4294967296 ∧
    ¬ (4294967295 : Nat) ≤ roundUp4 4294967295 ∧
    load32 (fb_alloc 1000 4294967295 ⟨2000, fun _ => 0, []⟩).2.mem 1996 = 4 ∧
    ((fb_alloc 1000 4294967295 ⟨2000, fun _ => 0, []⟩).2.ptr : Int) ≠
      2000 - specRoundUp 4294967295 - 4 := by
  have hr : roundUp4 4294967295 = 0 := by norm_num [roundUp4]
  have hs : specRoundUp 4294967295 = 4294967296 := by norm_num [specRoundUp]
  have he : fb_alloc 1000 4294967295 (⟨2000, fun _ => 0, []⟩ : FbState) =
      (.ok 2000, ⟨1996, store32 1996 4 (fun _ => 0), []⟩) := by
    rw [fb_alloc_success (by omega) (by rw [hr]; dsimp only; omega)]
    rw [hr]
    dsimp only
  rw [he, hr, hs]
  refine ⟨rfl, rfl, rfl, rfl, by omega, ?_, by norm_num⟩
  rw [show (1996 : Nat) = 1996 from rfl]
  have := load32_store32 1996 4 (fun _ => (0 : Nat))
  simpa using this

/-- C3 (amended): for every `size` with `0 < size ≤ 2^32 - 8` whose
allocation does not collide with the floor, `fb_alloc` rounds `size` up to
the machine word size (4 bytes: `roundUp4 size` is the least multiple of 4
that is at least `size`), writes `rounded + 4` into the header word
immediately above the returned payload pointer, sets the cursor to
`cursor - rounded - 4`, and returns payload pointer `cursor - rounded`.
(The unamended claim, quantified over every `uint32_t` size, fails for
`size > 2^32 - 8`, where the rounding or the header arithmetic wraps; see
the counterexample.)  Instantiated at the spec's concrete example in the
witness: `floor = 1000`, cursor `2000`, `allocate(10)` rounds to 12, moves
the cursor to 1984, returns 1988, and the header word at 1984 holds 16. -/
theorem c3_alloc_success_contract {floor size : Nat} {s : FbState}
    (h0 : 0 < size) (hsz : size ≤ 4294967288)
    (h : floor + roundUp4 size + 4 ≤ s.ptr) :
    (fb_alloc floor size s).1 = .ok (s.ptr - roundUp4 size) ∧
    (fb_alloc floor size s).2.ptr = s.ptr - roundUp4 size - 4 ∧
    load32 (fb_alloc floor size s).2.mem (s.ptr - roundUp4 size - 4) =
      roundUp4 size + 4 ∧
    (fb_alloc floor size s).2.mem =
      store32 (s.ptr - roundUp4 size - 4) (roundUp4 size + 4) s.mem ∧
    (fb_alloc floor size s).2.marks = s.marks ∧
    4 ∣ roundUp4 size ∧ size ≤ roundUp4 size ∧ roundUp4 size < size + 4 := by
  have hcase := roundUp4_cases (show size < 4294967296 by omega)
  have hround : size ≤ roundUp4 size ∧ roundUp4 size < size + 4 := by
    rcases hcase with h' | h' <;> omega
  rw [fb_alloc_success (by omega) h]
  refine ⟨rfl, rfl, ?_, rfl, rfl, roundUp4_dvd size, hround.1, hround.2⟩
  dsimp only
  rw [load32_store32, Nat.mod_eq_of_lt (by omega)]

theorem c3_alloc_success_contract_witness :
    (0 : Nat) < 10 ∧ (10 : Nat) ≤ 4294967288 ∧
      1000 + roundUp4 10 + 4 ≤ 2000 ∧ roundUp4 10 = 12 ∧
      ((fb_alloc 1000 10 ⟨2000, fun _ => 0, []⟩).1 = .ok 1988 ∧
        (fb_alloc 1000 10 ⟨2000, fun _ => 0, []⟩).2.ptr = 1984 ∧
        load32 (fb_alloc 1000 10 ⟨2000, fun _ => 0, []⟩).2.mem 1984 = 16) := by
  have hr : roundUp4 10 = 12 := by norm_num [roundUp4]
  have h := @c3_alloc_success_contract 1000 10 ⟨2000, fun _ => 0, []⟩
    (by omega) (by omega) (by rw [hr]; dsimp only; omega)
  refine ⟨by omega, by omega, by rw [hr]; omega, hr, ?_, ?_, ?_⟩
  · have := h.1
    rw [hr] at this
    simpa using this
  · have := h.2.1
    rw [hr] at this
    simpa using this
  · have := h.2.2.1
    rw [hr] at this
    simpa using this

/-- C8: `fb_alloc0` has the same contract as `fb_alloc`: identical result
(same returned pointer, same null-size and collision behaviour), identical
cursor movement, and identical memory outside the payload (in particular the
header word, which lies below the payload pointer); additionally the `size`
payload bytes are zero-filled.  For `size = 0` it returns null with the state
completely unchanged, zero-filling nothing. -/
theorem c8_alloc0_contract (floor size : Nat) (s : FbState) :
    (fb_alloc0 floor size s).1 = (fb_alloc floor size s).1 ∧
    (fb_alloc0 floor size s).2.ptr = (fb_alloc floor size s).2.ptr ∧
    (fb_alloc0 floor size s).2.marks = (fb_alloc floor size s).2.marks ∧
    (∀ p, (fb_alloc floor size s).1 = .ok p →
      (∀ x, p ≤ x → x < p + size → (fb_alloc0 floor size s).2.mem x = 0) ∧
      (∀ x, x < p → (fb_alloc0 floor size s).2.mem x =
        (fb_alloc floor size s).2.mem x) ∧
      (∀ x, p + size ≤ x → (fb_alloc0 floor size s).2.mem x =
        (fb_alloc floor size s).2.mem x)) ∧
    ((fb_alloc floor size s).1 = .collision →
      fb_alloc0 floor size s = (.collision, s)) ∧
    (size = 0 → fb_alloc0 floor size s = (.nullPtr, s)) := by
  by_cases h0 : size = 0
  · rw [h0, fb_alloc0_zero, fb_alloc_zero]
    refine ⟨rfl, rfl, rfl, fun p hp => ?_, fun hc => ?_, fun _ => rfl⟩
    · simp at hp
    · simp at hc
  by_cases hcol : s.ptr < floor + roundUp4 size + 4
  · rw [fb_alloc0_collision h0 hcol, fb_alloc_collision h0 hcol]
    refine ⟨rfl, rfl, rfl, fun p hp => ?_, fun _ => rfl, fun hz => absurd hz h0⟩
    simp at hp
  · rw [fb_alloc0_success h0 (by omega), fb_alloc_success h0 (by omega)]
    refine ⟨rfl, rfl, rfl, fun p hp => ?_, fun hc => ?_, fun hz => absurd hz h0⟩
    · have hp' : p = s.ptr - roundUp4 size := by
        dsimp only at hp
        exact (AllocResult.ok.injEq _ _ ▸ hp).symm
      subst hp'
      dsimp only
      exact ⟨fun x hx1 hx2 => memset0_eq_zero _ hx1 hx2,
        fun x hx => memset0_eq_of_lt _ _ hx,
        fun x hx => memset0_eq_of_ge _ hx⟩
    · simp at hc

theorem c8_alloc0_contract_witness :
    (fb_alloc0 1000 10 ⟨2000, fun _ => 7, []⟩).1 =
      (fb_alloc 1000 10 ⟨2000, fun _ => 7, []⟩).1 ∧
    (fb_alloc0 1000 10 ⟨2000, fun _ => 7, []⟩).2.ptr =
      (fb_alloc 1000 10 ⟨2000, fun _ => 7, []⟩).2.ptr ∧
    (fb_alloc0 1000 10 ⟨2000, fun _ => 7, []⟩).2.mem 1990 = 0 ∧
    (fb_alloc0 1000 10 ⟨2000, fun _ => 7, []⟩).2.mem 1985 =
      (fb_alloc 1000 10 ⟨2000, fun _ => 7, []⟩).2.mem 1985 ∧
    fb_alloc0 1000 0 ⟨2000, fun _ => 7, []⟩ = (.nullPtr, ⟨2000, fun _ => 7, []⟩) := by
  have h := c8_alloc0_contract 1000 10 ⟨2000, fun _ => 7, []⟩
  have hok : (fb_alloc 1000 10 (⟨2000, fun _ => 7, []⟩ : FbState)).1 = .ok 1988 := by
    rw [fb_alloc_success (by omega) (by dsimp only; norm_num [roundUp4])]
    dsimp only
    norm_num [roundUp4]
  have h4 := h.2.2.2.1 1988 hok
  have h0 := c8_alloc0_contract 1000 0 ⟨2000, fun _ => 7, []⟩
  exact ⟨h.1, h.2.1, h4.1 1990 (by omega) (by omega), h4.2.1 1985 (by omega),
    h0.2.2.2.2.2 rfl⟩

/-- C10: provided the region base address is a multiple of the machine word
size (4 bytes), the cursor of every reachable state is word-aligned, and every
non-null pointer returned by `fb_alloc` or `fb_alloc0` from such a state is
word-aligned. -/
theorem c10_word_alignment {base floor : Nat} {s : FbState} (hb : 4 ∣ base)
    (hr : Reachable base floor s) :
    4 ∣ s.ptr ∧
    (∀ size p s', fb_alloc floor size s = (.ok p, s') → 4 ∣ p) ∧
    (∀ size p s', fb_alloc0 floor size s = (.ok p, s') → 4 ∣ p) := by
  have hal : s.ptr % 4 = base % 4 := (reachable_inv hr).2.2
  have hp : 4 ∣ s.ptr := by omega
  refine ⟨hp, ?_, ?_⟩
  · intro size p s' h
    by_cases h0 : size = 0
    · rw [h0, fb_alloc_zero] at h
      simp at h
    by_cases hcol : s.ptr < floor + roundUp4 size + 4
    · rw [fb_alloc_collision h0 hcol] at h
      simp at h
    · rw [fb_alloc_success h0 (by omega)] at h
      have hpv : p = s.ptr - roundUp4 size := by
        have := congrArg Prod.fst h
        dsimp only at this
        exact (AllocResult.ok.injEq _ _ ▸ this.symm)
      subst hpv
      have := roundUp4_dvd size
      omega
  · intro size p s' h
    by_cases h0 : size = 0
    · rw [h0, fb_alloc0_zero] at h
      simp at h
    by_cases hcol : s.ptr < floor + roundUp4 size + 4
    · rw [fb_alloc0_collision h0 hcol] at h
      simp at h
    · rw [fb_alloc0_success h0 (by omega)] at h
      have hpv : p = s.ptr - roundUp4 size := by
        have := congrArg Prod.fst h
        dsimp only at this
        exact (AllocResult.ok.injEq _ _ ▸ this.symm)
      subst hpv
      have := roundUp4_dvd size
      omega

theorem c10_word_alignment_witness :
    (4 : Nat) ∣ 2000 ∧
      4 ∣ (fb_alloc 1000 10 (fb_alloc_init0 2000 ⟨0, fun _ => 0, []⟩)).2.ptr :=
  ⟨by omega,
    (c10_word_alignment (by omega)
      (.alloc (by omega) (.init ⟨0, fun _ => 0, []⟩))).1⟩

/-! ### Stack discipline (C4) -/

/-- A single `fb_alloc` call never raises the cursor, only writes memory at or
above the new cursor but strictly below the old one, and never touches the mark
stack. -/
lemma fb_alloc_step_below (floor size : Nat) (s : FbState) :
    (fb_alloc floor size s).2.ptr ≤ s.ptr ∧
    (∀ x, s.ptr ≤ x → (fb_alloc floor size s).2.mem x = s.mem x) ∧
    (fb_alloc floor size s).2.marks = s.marks := by
  by_cases h0 : size = 0
  · rw [h0, fb_alloc_zero]
    exact ⟨Nat.le_refl _, fun _ _ => rfl, rfl⟩
  by_cases hcol : s.ptr < floor + roundUp4 size + 4
  · rw [fb_alloc_collision h0 hcol]
    exact ⟨Nat.le_refl _, fun _ _ => rfl, rfl⟩
  · rw [fb_alloc_success h0 (by omega)]
    dsimp only
    exact ⟨by omega, fun x hx => store32_eq_of_ge _ _ (by omega), rfl⟩

/-- A sequence of `fb_alloc` calls never raises the cursor, preserves all
memory at or above the initial cursor, and preserves the mark stack. -/
lemma runAllocs_below {floor : Nat} (sizes : List Nat) :
    ∀ s : FbState,
      (runAllocs floor sizes s).ptr ≤ s.ptr ∧
      (∀ x, s.ptr ≤ x → (runAllocs floor sizes s).mem x = s.mem x) ∧
      (runAllocs floor sizes s).marks = s.marks := by
  induction sizes with
  | nil => exact fun s => ⟨Nat.le_refl _, fun _ _ => rfl, rfl⟩
  | cons size rest ih =>
    intro s
    obtain ⟨hs1, hs2, hs3⟩ := fb_alloc_step_below floor size s
    obtain ⟨ih1, ih2, ih3⟩ := ih (fb_alloc floor size s).2
    refine ⟨?_, ?_, ?_⟩
    · show (runAllocs floor rest (fb_alloc floor size s).2).ptr ≤ s.ptr
      omega
    · intro x hx
      show (runAllocs floor rest (fb_alloc floor size s).2).mem x = s.mem x
      rw [ih2 x (by omega), hs2 x hx]
    · show (runAllocs floor rest (fb_alloc floor size s).2).marks = s.marks
      rw [ih3, hs3]

lemma iterate_free_mem (base n : Nat) (s : FbState) :
    ((fb_free base)^[n] s).mem = s.mem := by
  induction n with
  | zero => rfl
  | succ k ih => rw [Function.iterate_succ_apply', fb_free_mem, ih]

lemma iterate_free_marks (base n : Nat) (s : FbState) :
    ((fb_free base)^[n] s).marks = s.marks := by
  induction n with
  | zero => rfl
  | succ k ih => rw [Function.iterate_succ_apply', fb_free_marks, ih]

/-- C4: stack discipline.  For any sequence of successful `fb_alloc` calls
with all sizes positive (taken inside a region with the cursor at most `base`
and below 2^32, the address width of the target), following them with equally
many `fb_free` calls returns the cursor exactly to its pre-sequence value. -/
theorem c4_stack_discipline {base floor : Nat} (sizes : List Nat) :
    ∀ s : FbState, (∀ z ∈ sizes, 0 < z) → s.ptr ≤ base →
      s.ptr < 4294967296 → allocsOk floor sizes s = true →
      ((fb_free base)^[sizes.length] (runAllocs floor sizes s)).ptr = s.ptr := by
  induction sizes with
  | nil => exact fun s _ _ _ _ => rfl
  | cons size rest ih =>
    intro s hpos hpb h32 hok
    have hok' : (fb_alloc floor size s).1.isOk = true ∧
        allocsOk floor rest (fb_alloc floor size s).2 = true := by
      have : allocsOk floor (size :: rest) s
          = ((fb_alloc floor size s).1.isOk && allocsOk floor rest (fb_alloc floor size s).2) := rfl
      rw [this] at hok
      exact Bool.and_eq_true_iff.mp hok
    have h0 : size ≠ 0 := by
      have := hpos size (List.mem_cons_self size rest)
      omega
    have hsucc : floor + roundUp4 size + 4 ≤ s.ptr := by
      by_contra hcol
      have hc : fb_alloc floor size s = (.collision, s) :=
        fb_alloc_collision h0 (by omega)
      rw [hc] at hok'
      simp [AllocResult.isOk] at hok'
    have heq := fb_alloc_success h0 hsucc
    have hptr' : (fb_alloc floor size s).2.ptr = s.ptr - roundUp4 size - 4 := by
      rw [heq]
    have hmem' : (fb_alloc floor size s).2.mem
        = store32 (s.ptr - roundUp4 size - 4) (roundUp4 size + 4) s.mem := by
      rw [heq]
    have hihp := ih (fb_alloc floor size s).2 (fun z hz => hpos z (List.mem_cons_of_mem _ hz))
      (by omega) (by omega) hok'.2
    show ((fb_free base)^[rest.length + 1] (runAllocs floor rest (fb_alloc floor size s).2)).ptr = s.ptr
    rw [Function.iterate_succ_apply']
    obtain ⟨hb1, hb2, _⟩ := runAllocs_below rest (fb_alloc floor size s).2
    have htmem : ((fb_free base)^[rest.length] (runAllocs floor rest (fb_alloc floor size s).2)).mem
        = (runAllocs floor rest (fb_alloc floor size s).2).mem :=
      iterate_free_mem base _ _
    have hload : load32
        ((fb_free base)^[rest.length] (runAllocs floor rest (fb_alloc floor size s).2)).mem
        (s.ptr - roundUp4 size - 4) = roundUp4 size + 4 := by
      rw [htmem]
      have e : load32 (runAllocs floor rest (fb_alloc floor size s).2).mem
          (s.ptr - roundUp4 size - 4)
          = load32 (fb_alloc floor size s).2.mem (s.ptr - roundUp4 size - 4) := by
        refine load32_congr fun x hx _ => hb2 x ?_
        rw [hptr']
        omega
      rw [e, hmem', load32_store32, Nat.mod_eq_of_lt (by omega)]
    rw [fb_free_pos (by rw [hihp, hptr']; omega)]
    dsimp only
    rw [hihp, hptr', hload]
    omega

theorem c4_stack_discipline_witness :
    (∀ z ∈ [10, 20], 0 < z) ∧ (2000 : Nat) ≤ 2000 ∧ (2000 : Nat) < 4294967296 ∧
      allocsOk 1000 [10, 20] ⟨2000, fun _ => 0, []⟩ = true ∧
      ((fb_free 2000)^[2] (runAllocs 1000 [10, 20] ⟨2000, fun _ => 0, []⟩)).ptr = 2000 := by
  refine ⟨by decide, by omega, by omega, by decide, ?_⟩
  exact c4_stack_discipline [10, 20] ⟨2000, fun _ => 0, []⟩ (by decide)
    (by dsimp only; omega) (by dsimp only; omega) (by decide)

/-! ### Mark / release round-trip (C6) -/

lemma popTo_stop {base m fuel : Nat} {s : FbState} (h : s.ptr = m) :
    popTo base m fuel s = s := by
  cases fuel with
  | zero => rfl
  | succ k =>
    unfold popTo
    rw [if_pos h]

lemma popTo_step {base m fuel : Nat} {s : FbState} (h : s.ptr ≠ m) :
    popTo base m (fuel + 1) s = popTo base m fuel (fb_free base s) := by
  have e : popTo base m (fuel + 1) s
      = if s.ptr = m then s else popTo base m fuel (fb_free base s) := rfl
  rw [e, if_neg h]

/-- `release_to_mark` with a mark outstanding: pop the mark and run the
header-driven pop loop. -/
lemma release_pops_to {base : Nat} {t : FbState} {m : Nat} {rest : List Nat}
    (hmarks : t.marks = m :: rest) :
    fb_alloc_free_till_mark base t =
      { popTo base m (base - t.ptr) t with marks := rest } := by
  unfold fb_alloc_free_till_mark
  rw [hmarks]

/-- A non-collision `fb_alloc` call either was a null-size no-op or succeeded,
with the success case described field by field. -/
lemma fb_alloc_not_collision {floor size : Nat} {s : FbState}
    (h : (fb_alloc floor size s).1 ≠ .collision) :
    (size = 0 ∧ (fb_alloc floor size s).2 = s) ∨
    (0 < size ∧ floor + roundUp4 size + 4 ≤ s.ptr ∧
      (fb_alloc floor size s).2.ptr = s.ptr - roundUp4 size - 4 ∧
      (fb_alloc floor size s).2.mem =
        store32 (s.ptr - roundUp4 size - 4) (roundUp4 size + 4) s.mem ∧
      (fb_alloc floor size s).2.marks = s.marks) := by
  by_cases h0 : size = 0
  · left
    exact ⟨h0, by rw [h0, fb_alloc_zero]⟩
  · by_cases hcol : s.ptr < floor + roundUp4 size + 4
    · exfalso
      apply h
      rw [fb_alloc_collision h0 hcol]
    · right
      rw [fb_alloc_success h0 (by omega)]
      exact ⟨by omega, by omega, rfl, rfl, rfl⟩

/-- One `fb_free` whose header says "jump to `m`". -/
lemma fb_free_header {base m : Nat} {t : FbState} (hlt : t.ptr < base)
    (hge : t.ptr ≤ m) (hload : load32 t.mem t.ptr = m - t.ptr) :
    (fb_free base t).ptr = m ∧ (fb_free base t).mem = t.mem ∧
      (fb_free base t).marks = t.marks := by
  rw [fb_free_pos hlt]
  dsimp only
  rw [hload]
  exact ⟨by omega, rfl, rfl⟩

/-- C6: the sequence `mark(); allocate(x); allocate(y); release_to_mark()`
(for any `x`, `y` whose allocations do not collide, over a region with the
cursor at most `base` and below 2^32) leaves both the cursor and the mark
stack exactly as they were before the `mark()` call. -/
theorem c6_mark_release_roundtrip {base floor x y : Nat} {s : FbState}
    (hpb : s.ptr ≤ base) (h32 : s.ptr < 4294967296)
    (hx : (fb_alloc floor x (fb_alloc_mark s)).1 ≠ .collision)
    (hy : (fb_alloc floor y (fb_alloc floor x (fb_alloc_mark s)).2).1 ≠ .collision) :
    (fb_alloc_free_till_mark base
        (fb_alloc floor y (fb_alloc floor x (fb_alloc_mark s)).2).2).ptr = s.ptr ∧
    (fb_alloc_free_till_mark base
        (fb_alloc floor y (fb_alloc floor x (fb_alloc_mark s)).2).2).marks = s.marks := by
  have hm1 : (fb_alloc_mark s).ptr = s.ptr := rfl
  have hm2 : (fb_alloc_mark s).mem = s.mem := rfl
  have hm3 : (fb_alloc_mark s).marks = s.ptr :: s.marks := rfl
  rcases fb_alloc_not_collision hx with ⟨hx0, hxe⟩ | ⟨hx0, hxg, hxp, hxm, hxk⟩
  · -- x = 0 : the first call left the state unchanged
    rw [hxe] at hy ⊢
    rcases fb_alloc_not_collision hy with ⟨hy0, hye⟩ | ⟨hy0, hyg, hyp, hym, hyk⟩
    · -- y = 0 as well: nothing allocated, release pops just the mark
      rw [hye, release_pops_to hm3]
      refine ⟨?_, rfl⟩
      rw [popTo_stop hm1]
      rfl
    · -- only y allocated: one pop
      rw [hm1] at hyg hyp hym
      rw [release_pops_to (hyk.trans hm3)]
      refine ⟨?_, rfl⟩
      have hlt : (fb_alloc floor y (fb_alloc_mark s)).2.ptr < base := by omega
      have hload : load32 (fb_alloc floor y (fb_alloc_mark s)).2.mem
          (fb_alloc floor y (fb_alloc_mark s)).2.ptr
          = s.ptr - (fb_alloc floor y (fb_alloc_mark s)).2.ptr := by
        rw [hym, hyp, load32_store32, Nat.mod_eq_of_lt (by omega)]
        omega
      obtain ⟨hf1, _, _⟩ := fb_free_header hlt (by omega) hload
      obtain ⟨k, hk⟩ : ∃ k, base - (fb_alloc floor y (fb_alloc_mark s)).2.ptr = k + 1 :=
        ⟨base - (fb_alloc floor y (fb_alloc_mark s)).2.ptr - 1, by omega⟩
      rw [hk, popTo_step (by omega), popTo_stop hf1]
      exact hf1
  · -- x allocated
    rw [hm1] at hxg hxp hxm
    rw [hm2] at hxm
    have hxk' := hxk.trans hm3
    rcases fb_alloc_not_collision hy with ⟨hy0, hye⟩ | ⟨hy0, hyg, hyp, hym, hyk⟩
    · -- y = 0 : one pop
      rw [hye, release_pops_to hxk']
      refine ⟨?_, rfl⟩
      have hlt : (fb_alloc floor x (fb_alloc_mark s)).2.ptr < base := by omega
      have hload : load32 (fb_alloc floor x (fb_alloc_mark s)).2.mem
          (fb_alloc floor x (fb_alloc_mark s)).2.ptr
          = s.ptr - (fb_alloc floor x (fb_alloc_mark s)).2.ptr := by
        rw [hxm, hxp, load32_store32, Nat.mod_eq_of_lt (by omega)]
        omega
      obtain ⟨hf1, _, _⟩ := fb_free_header hlt (by omega) hload
      obtain ⟨k, hk⟩ : ∃ k, base - (fb_alloc floor x (fb_alloc_mark s)).2.ptr = k + 1 :=
        ⟨base - (fb_alloc floor x (fb_alloc_mark s)).2.ptr - 1, by omega⟩
      rw [hk, popTo_step (by omega), popTo_stop hf1]
      exact hf1
    · -- both allocated: two pops
      rw [hxp] at hyg hyp
      rw [hxp, hxm] at hym
      rw [release_pops_to (hyk.trans hxk')]
      refine ⟨?_, rfl⟩
      have hlt1 : (fb_alloc floor y (fb_alloc floor x (fb_alloc_mark s)).2).2.ptr < base := by
        omega
      have hload1 : load32 (fb_alloc floor y (fb_alloc floor x (fb_alloc_mark s)).2).2.mem
          (fb_alloc floor y (fb_alloc floor x (fb_alloc_mark s)).2).2.ptr
          = (s.ptr - roundUp4 x - 4) -
            (fb_alloc floor y (fb_alloc floor x (fb_alloc_mark s)).2).2.ptr := by
        rw [hym, hyp, load32_store32, Nat.mod_eq_of_lt (by omega)]
        omega
      obtain ⟨hf1, hf2, _⟩ := fb_free_header hlt1 (by omega) hload1
      have hlt2 : (fb_free base
          (fb_alloc floor y (fb_alloc floor x (fb_alloc_mark s)).2).2).ptr < base := by
        omega
      have hload2 : load32 (fb_free base
            (fb_alloc floor y (fb_alloc floor x (fb_alloc_mark s)).2).2).mem
          (fb_free base (fb_alloc floor y (fb_alloc floor x (fb_alloc_mark s)).2).2).ptr
          = s.ptr - (fb_free base
            (fb_alloc floor y (fb_alloc floor x (fb_alloc_mark s)).2).2).ptr := by
        rw [hf1, hf2, hym]
        have e : load32 (store32 ((s.ptr - roundUp4 x - 4) - roundUp4 y - 4)
              (roundUp4 y + 4)
              (store32 (s.ptr - roundUp4 x - 4) (roundUp4 x + 4) s.mem))
            (s.ptr - roundUp4 x - 4)
            = load32 (store32 (s.ptr - roundUp4 x - 4) (roundUp4 x + 4) s.mem)
              (s.ptr - roundUp4 x - 4) :=
          load32_congr fun z hz _ => store32_eq_of_ge _ _ (by omega)
        rw [e, load32_store32, Nat.mod_eq_of_lt (by omega)]
        omega
      obtain ⟨hg1, _, _⟩ := fb_free_header hlt2 (by rw [hf1]; omega) hload2
      obtain ⟨k, hk⟩ : ∃ k,
          base - (fb_alloc floor y (fb_alloc floor x (fb_alloc_mark s)).2).2.ptr = k + 2 :=
        ⟨base - (fb_alloc floor y (fb_alloc floor x (fb_alloc_mark s)).2).2.ptr - 2, by omega⟩
      rw [hk, show k + 2 = (k + 1) + 1 from rfl, popTo_step (by omega),
        popTo_step (by rw [hf1]; omega), popTo_stop hg1]
      exact hg1

theorem c6_mark_release_roundtrip_witness :
    (2000 : Nat) ≤ 2000 ∧ (2000 : Nat) < 4294967296 ∧
      (fb_alloc 1000 10 (fb_alloc_mark ⟨2000, fun _ => 0, []⟩)).1 ≠ .collision ∧
      (fb_alloc 1000 20
        (fb_alloc 1000 10 (fb_alloc_mark ⟨2000, fun _ => 0, []⟩)).2).1 ≠ .collision ∧
      (fb_alloc_free_till_mark 2000
        (fb_alloc 1000 20
          (fb_alloc 1000 10 (fb_alloc_mark ⟨2000, fun _ => 0, []⟩)).2).2).ptr = 2000 ∧
      (fb_alloc_free_till_mark 2000
        (fb_alloc 1000 20
          (fb_alloc 1000 10 (fb_alloc_mark ⟨2000, fun _ => 0, []⟩)).2).2).marks = [] := by
  have h := @c6_mark_release_roundtrip 2000 1000 10 20 ⟨2000, fun _ => 0, []⟩
    (by dsimp only; omega) (by dsimp only; omega) (by decide) (by decide)
  exact ⟨by omega, by omega, by decide, by decide, h.1, h.2⟩

end FbAlloc
